import Mathlib

/-!
Verification of the submission reconciliation engine of the Site-Visit
repository (`SiteVisit.py`, `SubmissionListDiff.py`).

The Python functions are shallowly embedded as Lean functions over
`List Char` / `String`.  Machine details that the claims do not touch
(file I/O, the Office automation, QR codes) are out of scope; the
embedded functions mirror the pure decision logic of the source
line by line.
-/

namespace SiteVisit

/-- Python's `\s` character class, restricted to the ASCII whitespace
characters (the inputs of this program are ASCII file names). -/
def pyIsSpace (c : Char) : Bool :=
  c = ' ' || c = '\t' || c = '\n' || c = '\x0b' || c = '\x0c' || c = '\r'

/-- ASCII upper-casing of one character, as Python's `str.upper` acts on
ASCII text (embeds `.upper()` at `SiteVisit.py:109`). -/
def upperChar (c : Char) : Char :=
  if 'a' ≤ c ∧ c ≤ 'z' then Char.ofNat (c.toNat - 32) else c

/-- ASCII lower-casing of one character, as Python's `str.lower` acts on
ASCII text (embeds `.lower()` on extensions and sibling names). -/
def lowerChar (c : Char) : Char :=
  if 'A' ≤ c ∧ c ≤ 'Z' then Char.ofNat (c.toNat + 32) else c

/-- Applies `.upper()` to a character list. -/
def upperL (cs : List Char) : List Char := cs.map upperChar

/-- Applies `.lower()` to a string. -/
def pyLower (s : String) : String := String.mk (s.data.map lowerChar)

/-- Does `re.sub(r"\s*\_+\s*", "_", ·)` have a match starting at the head
of `cs`?  The pattern requires optional whitespace followed by at least
one underscore, so a match starts here exactly when skipping whitespace
lands on an underscore. -/
def sepStart (cs : List Char) : Bool :=
  match cs.dropWhile pyIsSpace with
  | c :: _ => c = '_'
  | [] => false

/-- Consume one maximal `\s*\_+\s*` match: greedy whitespace, then the
run of underscores, then greedy whitespace. -/
def dropSep (cs : List Char) : List Char :=
  ((cs.dropWhile pyIsSpace).dropWhile (fun c => c = '_')).dropWhile pyIsSpace

/-- Worker for `normSep`, structurally recursive on a fuel argument.
Each step consumes at least one input character, so fuel equal to the
input length (as supplied by `normSep`) is always sufficient and the
fuel-exhausted branch is unreachable. -/
def normSepGo : Nat → List Char → List Char
  | 0, cs => cs
  | _ + 1, [] => []
  | fuel + 1, c :: cs =>
    if sepStart (c :: cs) then '_' :: normSepGo fuel (dropSep (c :: cs))
    else c :: normSepGo fuel cs

/-- Embeds `re.sub(r"\s*\_+\s*", "_", filename)` (`SiteVisit.py:102`):
scan left to right, replacing every maximal run of underscores together
with its surrounding whitespace by a single underscore. -/
def normSep (cs : List Char) : List Char := normSepGo cs.length cs

/-- Embeds Python's `str.split('_')` (`SiteVisit.py:102`). -/
def splitU : List Char → List (List Char)
  | [] => [[]]
  | c :: cs =>
    match splitU cs with
    | [] => [[]]
    | f :: fs => if c = '_' then [] :: f :: fs else (c :: f) :: fs

/-- Embeds `'_'.join(fields)` (`SiteVisit.py:289`). -/
def joinU : List (List Char) → List Char
  | [] => []
  | [f] => f
  | f :: g :: fs => f ++ '_' :: joinU (g :: fs)

lemma splitU_ne_nil (cs : List Char) : splitU cs ≠ [] := by
  cases cs with
  | nil => simp [splitU]
  | cons c cs =>
    unfold splitU
    rcases splitU cs with _ | ⟨f, fs⟩
    · simp
    · by_cases hc : c = '_' <;> simp [hc]

lemma joinU_splitU (cs : List Char) : joinU (splitU cs) = cs := by
  induction cs with
  | nil => simp [splitU, joinU]
  | cons c cs ih =>
    unfold splitU
    rcases h : splitU cs with _ | ⟨f, fs⟩
    · exact absurd h (splitU_ne_nil cs)
    · rw [h] at ih
      by_cases hc : c = '_'
      · subst hc
        simp only [if_pos rfl, joinU]
        rcases fs with _ | ⟨g, gs⟩
        · simpa [joinU] using ih
        · simpa [joinU] using ih
      · simp only [if_neg hc]
        rcases fs with _ | ⟨g, gs⟩
        · simpa [joinU] using ih
        · simpa [joinU] using ih

/-- The six decoded fields returned by `decode`
(`return (last, first, univ, prof, indx, revs)`, `SiteVisit.py:111`). -/
structure Decoded where
  last : List Char
  first : List Char
  univ : List Char
  prof : List Char
  indx : List Char
  revs : List Char
  deriving DecidableEq, Repr

/-- Embeds `decode` (`SiteVisit.py:99-111`).  Splits the
separator-normalized filename on `_`; accepts 4, 5 or 6 fields
(`range(4, 7)`); index defaults to `"1"`, revision defaults to `"R0"`
and is upper-cased when present.  `none` models the raised
`ValueError` (the spec's `MalformedName`). -/
def decode (filename : List Char) : Option Decoded :=
  let fields := splitU (normSep filename)
  if 4 ≤ fields.length ∧ fields.length < 7 then
    some ⟨fields.getD 0 [], fields.getD 1 [], fields.getD 2 [],
          fields.getD 3 [],
          if fields.length < 5 then ['1'] else fields.getD 4 [],
          if fields.length < 6 then ['R', '0'] else upperL (fields.getD 5 [])⟩
  else none

/-- Embeds `'_'.join(decode(name))` (`SiteVisit.py:289`): the Encode
direction of the codec, joining the six decoded fields with `_`. -/
def encode (t : Decoded) : List Char :=
  joinU [t.last, t.first, t.univ, t.prof, t.indx, t.revs]

/-- Decode-then-Encode round trip on a raw filename. -/
def roundTrip (filename : List Char) : Option (List Char) :=
  (decode filename).map encode

/-- The revision token in canonical form: a capital `R` followed by one
or more decimal digits. -/
def isCanonRev (cs : List Char) : Bool :=
  match cs with
  | c :: ds => c = 'R' && ds ≠ [] && ds.all Char.isDigit
  | [] => false

/-- Python's substring test `pat in s` (`str.__contains__`). -/
def subIn (pat s : String) : Bool := decide (pat.data <:+: s.data)

/-- Leftmost match of a case-sensitive literal alternation, as
`re.search("Core|Non-core|Associated", s)`: try each alternative in
order at every position, left to right; return the matched text
(`group(0)`, which for a literal alternative is the alternative
itself). -/
def searchAlt (alts : List (List Char)) : List Char → Option (List Char)
  | [] => alts.find? (fun a => decide (a <+: ([] : List Char)))
  | c :: rest =>
    match alts.find? (fun a => decide (a <+: (c :: rest))) with
    | some a => some a
    | none => searchAlt alts rest

/-- One pattern character of the area regular expressions: a literal
(matched case-insensitively, `re.IGNORECASE`) or the class `\s`. -/
inductive PatC where
  | lit (c : Char)
  | ws
  deriving DecidableEq

/-- Build an area pattern from its display text, each space standing
for the `\s` in the source pattern. -/
def mkPat (s : String) : List PatC :=
  s.data.map (fun c => if c = ' ' then PatC.ws else PatC.lit c)

/-- Does one pattern character match one text character? -/
def matchC : PatC → Char → Bool
  | PatC.lit l, c => lowerChar l = lowerChar c
  | PatC.ws, c => pyIsSpace c

/-- Match a pattern against a prefix of the text, returning the matched
text (`group(0)`). -/
def matchPat : List PatC → List Char → Option (List Char)
  | [], _ => some []
  | _ :: _, [] => none
  | p :: ps, c :: cs =>
    if matchC p c then (matchPat ps cs).map (fun t => c :: t) else none

/-- Leftmost match of an alternation of `PatC` patterns, as
`re.search` with the area pattern: try each alternative in order at
every position, left to right; return the matched text. -/
def searchPats (pats : List (List PatC)) : List Char → Option (List Char)
  | [] => pats.findSome? (fun p => matchPat p [])
  | c :: rest =>
    match pats.findSome? (fun p => matchPat p (c :: rest)) with
    | some t => some t
    | none => searchPats pats rest

/-- The category alternation `"Core|Non-core|Associated"`
(`SiteVisit.py:117`) — compiled without `re.IGNORECASE`. -/
def categoryAlts : List (List Char) :=
  [ "Core".data, "Non-core".data, "Associated".data ]

/-- The research-area alternation (`SiteVisit.py:119-124`), compiled
with `re.IGNORECASE`; each `\s` in the source is a `PatC.ws`. -/
def areaPats : List (List PatC) :=
  [ mkPat "Hardware Testbed", mkPat "HVDC and FACTS",
    mkPat "Large Scale Testbed", mkPat "Other Categories",
    mkPat "Power Converter Design and Control",
    mkPat "Power Electronics Devices and Components",
    mkPat "Power System Control", mkPat "Power System Estimation",
    mkPat "Power System Modeling", mkPat "Power System Monitoring" ]

/-- Embeds `categorize` (`SiteVisit.py:114-135`): the category is the
leftmost (case-sensitive) match of `categoryAlts` in the path, or
`none`; the area is the leftmost case-insensitive match of `areaPats`,
and its absence raises (`none` result, the spec's `UnresolvedArea`). -/
def categorize (filepath : String) : Option (Option String × String) :=
  let category := (searchAlt categoryAlts filepath.data).map String.mk
  match searchPats areaPats filepath.data with
  | some a => some (category, String.mk a)
  | none => none

/-- Submission kind. -/
inductive Kind where
  | paper
  | poster
  deriving DecidableEq, Repr

/-- Errors of the kind-classification block. -/
inductive KindError where
  | confused
  | unsupported
  deriving DecidableEq, Repr

instance {ε α : Type} [DecidableEq ε] [DecidableEq α] :
    DecidableEq (Except ε α) := fun a b =>
  match a, b with
  | Except.error e, Except.error f =>
    if h : e = f then isTrue (by rw [h]) else isFalse (by simp [h])
  | Except.error _, Except.ok _ => isFalse (by simp)
  | Except.ok _, Except.error _ => isFalse (by simp)
  | Except.ok x, Except.ok y =>
    if h : x = y then isTrue (by rw [h]) else isFalse (by simp [h])

/-- Embeds the kind-determination block of `generateList`
(`SiteVisit.py:260-286`) for one file: `path` is the containing
directory path, `ext` the extension from `os.path.splitext`, and
`siblings` the names listed in the same directory (`os.listdir`).
`KindError.confused` models the `"Confused ... for paper or poster?"`
`ValueError`, `KindError.unsupported` the unsupported-format one. -/
def classifyKind (path ext : String) (siblings : List String) :
    Except KindError Kind :=
  let isPoster := subIn "Poster" path
  let isPaper := subIn "Paper" path
  let e := pyLower ext
  let finish : Bool → Bool → Except KindError Kind := fun po pa =>
    if po && pa then Except.error KindError.confused
    else if po then Except.ok Kind.poster
    else Except.ok Kind.paper
  if e = ".doc" || e = ".docx" then finish isPoster true
  else if e = ".ppt" || e = ".pptx" then finish true isPaper
  else if e = ".pdf" then
    if !(isPoster || isPaper) then
      let paperHere := siblings.any
        (fun f => subIn ".doc" (pyLower f) || subIn ".docx" (pyLower f))
      finish (!paperHere) paperHere
    else finish isPoster isPaper
  else Except.error KindError.unsupported

/-- One entry of the submission registry, the dictionary built by
`generateList` (`SiteVisit.py:292-305`).  Paper entries carry no
`"Category"` key in the source; they are embedded with
`category = none`. -/
structure Record where
  path : String
  name : String
  baseName : String
  revision : Int
  extension : String
  category : Option String
  area : String
  deriving DecidableEq, Repr, Inhabited

/-- Lexicographic (code-point) comparison of character lists: Python's
`<` on strings, the order underlying `sorted` by string key. -/
def listCharLt : List Char → List Char → Bool
  | [], [] => false
  | [], _ :: _ => true
  | _ :: _, [] => false
  | a :: as, b :: bs => a < b || (a = b && listCharLt as bs)

/-- Comparator realizing Python's stable `sorted(range(n),
key=baseNames.__getitem__)` (`SiteVisit.py:316`): order by base name,
with the original index as tie-break, which is exactly what stability
gives for distinct indices. -/
def keyLe (names : List String) (i j : Nat) : Bool :=
  listCharLt ((names.getD i "").data) ((names.getD j "").data)
    || ((names.getD i "") = (names.getD j "") && i ≤ j)

/-- Insert into a sorted index list. -/
def insertSorted (le : Nat → Nat → Bool) (i : Nat) : List Nat → List Nat
  | [] => [i]
  | j :: rest => if le i j then i :: j :: rest else j :: insertSorted le i rest

/-- Insertion sort of an index list. -/
def isort (le : Nat → Nat → Bool) : List Nat → List Nat
  | [] => []
  | i :: rest => insertSorted le i (isort le rest)

/-- Python list indexing with negative-index wrap-around, as
`sortedIndx[i-1]` would behave at `i = 0`. -/
def pyIdx (l : List Nat) (i : Int) : Nat :=
  if i < 0 then l.getD (l.length - (-i).toNat) 0 else l.getD i.toNat 0

/-- The linear deletion pass of `removeOldRevisions`
(`SiteVisit.py:320-339`): walk the name-sorted records tracking the
previous name and revision; on a strictly larger revision delete the
previous position's original index (`sortedIndx[i-1]`), on a strictly
smaller one delete the current position's original index. -/
def revPassGo (sIndx : List Nat) (sRevs : List Int) :
    List String → Nat → String → Int → List Nat
  | [], _, _, _ => []
  | n :: rest, i, prevName, prevRev =>
    if n ≠ prevName then
      revPassGo sIndx sRevs rest (i + 1) n (sRevs.getD i 0)
    else if sRevs.getD i 0 > prevRev then
      pyIdx sIndx ((i : Int) - 1) ::
        revPassGo sIndx sRevs rest (i + 1) prevName (sRevs.getD i 0)
    else if sRevs.getD i 0 < prevRev then
      sIndx.getD i 0 :: revPassGo sIndx sRevs rest (i + 1) prevName prevRev
    else
      revPassGo sIndx sRevs rest (i + 1) prevName prevRev

/-- Embeds `removeOldRevisions` (`SiteVisit.py:310-341`).  The source
returns `[fileList[i] for i in set(sortedIndx) - set(indicesToDelete)]`;
since `sortedIndx` is a permutation of `range(len(fileList))` that set
difference holds exactly the non-deleted indices, and its iteration
order is unspecified in Python, realized here in ascending index
order. -/
def removeOldRevisions (fileList : List Record) : List Record :=
  let baseNames := fileList.map (fun p => p.baseName)
  let revisions := fileList.map (fun p => p.revision)
  let sortedIndx := isort (keyLe baseNames) (List.range fileList.length)
  let sortedNames := sortedIndx.map (fun i => baseNames.getD i "")
  let sortedRevs := sortedIndx.map (fun i => revisions.getD i 0)
  let indicesToDelete := revPassGo sortedIndx sortedRevs sortedNames 0 "" (-1)
  ((List.range fileList.length).filter (fun i => i ∉ indicesToDelete)).map
    (fun i => fileList.getD i default)

/-- The loop of `findDuplicate` (`SiteVisit.py:346-354`): `uniqNames`
accumulates the distinct names seen so far, `dup` the `duplicate`
flag. -/
def findDupGo (uniqNames : List String) (dup : Bool) : List String → Bool
  | [] => dup
  | n :: rest =>
    if n ∈ uniqNames then findDupGo uniqNames true rest
    else findDupGo (uniqNames ++ [n]) dup rest

/-- Embeds `findDuplicate` (`SiteVisit.py:344-357`): `true` means the
final `ValueError` (the spec's `DuplicateSubmission`) is raised. -/
def findDuplicate (fileList : List Record) : Bool :=
  findDupGo [] false (fileList.map (fun f => f.name))

/-- Renders a value that may be `None` the way a Python f-string does. -/
def pyStrOpt : Option String → String
  | some s => s
  | none => "None"

/-- The Papers.csv header line printed at `SiteVisit.py:398-399`. -/
def papersHeader : String :=
  "File name, Area, Last name, First name, University, Professor, Index, Revision"

/-- The Posters.csv header line printed at `SiteVisit.py:400-401`. -/
def postersHeader : String :=
  "File name, Category, Area, Last name, First name, University, Professor, Index, Revision"

/-- One paper row (`SiteVisit.py:407-408`). -/
def renderPaper (p : Record) (d : Decoded) : String :=
  p.name ++ ", " ++ p.area ++ ", " ++ String.mk d.last ++ ", "
    ++ String.mk d.first ++ ", " ++ String.mk d.univ ++ ", "
    ++ String.mk d.prof ++ ", " ++ String.mk d.indx ++ ", "
    ++ String.mk d.revs

/-- One poster row (`SiteVisit.py:415-416`). -/
def renderPoster (p : Record) (d : Decoded) : String :=
  p.name ++ ", " ++ pyStrOpt p.category ++ ", " ++ p.area ++ ", "
    ++ String.mk d.last ++ ", " ++ String.mk d.first ++ ", "
    ++ String.mk d.univ ++ ", " ++ String.mk d.prof ++ ", "
    ++ String.mk d.indx ++ ", " ++ String.mk d.revs

/-- The data rows of one CSV file, in print order; a record whose name
fails `decode` raises and cuts the output short at that point. -/
def csvRows (render : Record → Decoded → String) : List Record → List String
  | [] => []
  | p :: ps =>
    match decode p.name.data with
    | some d => render p d :: csvRows render ps
    | none => []

/-- Embeds `writeList2CSV` (`SiteVisit.py:389-419`) as the two emitted
line streams (Papers.csv lines, Posters.csv lines); each header is
printed before any row. -/
def writeList2CSV (papers posters : List Record) :
    List String × List String :=
  (papersHeader :: csvRows renderPaper papers,
   postersHeader :: csvRows renderPoster posters)

/-- Modelled from the spec (§6): the Papers.csv header line the spec
asserts, used only to compare the spec's words against the source. -/
def specPapersHeader : String :=
  "File name, Area, Last name, First name, University, Professor, Index, Revision, Last Modified, Title, Abstract"

/-- Modelled from the spec (§6): the Posters.csv header line the spec
asserts, used only to compare the spec's words against the source. -/
def specPostersHeader : String :=
  "File name, Category, Area, Last name, First name, University, Professor, Index, Revision, Last Modified, Title"

/-- One manifest row as read by `SubmissionListDiff.diff`
(`SubmissionListDiff.py:15-31`): the `File name`, `Category`, `Area`
and `Last Modified` columns.  `Last Modified` is parsed with `float`
and only compared for (in)equality, embedded as an integer value. -/
structure Row where
  name : String
  category : String
  area : String
  mtime : Int
  deriving DecidableEq, Repr, Inhabited

/-- Does `re.match(r"(.*)_R\d+", ·)` find `_R<digit>` starting here? -/
def isRevAt : List Char → Bool
  | '_' :: 'R' :: d :: _ => d.isDigit
  | _ => false

/-- Embeds `getName.match(f["File name"]).group(1)` with
`getName = re.compile(r"(.*)_R\d+")` (`SubmissionListDiff.py:19-21`):
the greedy `.*` keeps everything before the last `_R<digit>`
occurrence (not crossing a newline, which `.` does not match);
`none` models the `AttributeError` when there is no match. -/
def stripRev (s : String) : Option String :=
  let cs := s.data
  match ((List.range cs.length).filter
      (fun i => isRevAt (cs.drop i) && decide ('\n' ∉ cs.take i))).max? with
  | some i => some (String.mk (cs.take i))
  | none => none

/-- Base names of a manifest, row by row (`namesA` / `namesB`,
`SubmissionListDiff.py:20-21`); `none` when any row fails to parse. -/
def parseNames : List Row → Option (List String)
  | [] => some []
  | r :: rs =>
    match stripRev r.name, parseNames rs with
    | some n, some ns => some (n :: ns)
    | _, _ => none

/-- Embeds `a[namesA.index(n)]`: the first reference row whose base name is
`n` (`SubmissionListDiff.py:41`). -/
def lookupRef (namesA : List String) (a : List Row) (n : String) :
    Option Row :=
  ((namesA.zip a).find? (fun p => p.1 = n)).map (fun p => p.2)

/-- The four report groups of `SubmissionListDiff.diff`. -/
structure DiffReport where
  newSubs : List String
  contentModifies : List String
  categoryChanges : List String
  delSubs : List String
  deriving DecidableEq, Repr

/-- Embeds `diff` (`SubmissionListDiff.py:12-51`): `a` is the
reference manifest, `b` the candidate.  `none` models the
`AttributeError` when some `File name` carries no `_R<digits>`
suffix. -/
def diff (a b : List Row) : Option DiffReport :=
  match parseNames a, parseNames b with
  | some namesA, some namesB =>
    let pairsB := namesB.zip b
    let newSubs := (pairsB.filter (fun p => p.1 ∉ namesA)).map (fun p => p.1)
    let contentModifies := pairsB.filterMap (fun p =>
      match lookupRef namesA a p.1 with
      | some ra => if ra.mtime ≠ p.2.mtime then some p.1 else none
      | none => none)
    let categoryChanges := pairsB.filterMap (fun p =>
      match lookupRef namesA a p.1 with
      | some ra =>
        if ra.category ≠ p.2.category || ra.area ≠ p.2.area then some p.1
        else none
      | none => none)
    let delSubs := namesA.filter (fun n => n ∉ namesB)
    some ⟨newSubs, contentModifies, categoryChanges, delSubs⟩
  | _, _ => none

/-- A sample registry record used by the concrete evaluations below. -/
def mkRec (nm : String) (bn : String) (rv : Int) : Record :=
  ⟨ "p/" ++ nm, nm, bn, rv, ".pdf", none, "Hardware Testbed" ⟩

/-- The revision-resolver input exhibiting the stale-revision bug:
one base-name group whose revisions appear in discovery order
1, 0, 2. -/
def c1Input : List Record :=
  [ mkRec "Zhang_Wen_UTK_Wang_1_R1" "Zhang_Wen_UTK_Wang_1" 1,
    mkRec "Zhang_Wen_UTK_Wang_1_R0" "Zhang_Wen_UTK_Wang_1" 0,
    mkRec "Zhang_Wen_UTK_Wang_1_R2" "Zhang_Wen_UTK_Wang_1" 2 ]

end SiteVisit

namespace SiteVisit

/-! ### Supporting lemmas -/

lemma list_eq_of_length_four {α : Type} (l : List α) (d : α)
    (h : l.length = 4) :
    l = [l.getD 0 d, l.getD 1 d, l.getD 2 d, l.getD 3 d] := by
  rcases l with _ | ⟨a, l⟩; · simp at h
  rcases l with _ | ⟨b, l⟩; · simp at h
  rcases l with _ | ⟨c, l⟩; · simp at h
  rcases l with _ | ⟨e, l⟩; · simp at h
  rcases l with _ | ⟨f, l⟩
  · rfl
  · simp at h

lemma list_eq_of_length_five {α : Type} (l : List α) (d : α)
    (h : l.length = 5) :
    l = [l.getD 0 d, l.getD 1 d, l.getD 2 d, l.getD 3 d, l.getD 4 d] := by
  rcases l with _ | ⟨a, l⟩; · simp at h
  rcases l with _ | ⟨b, l⟩; · simp at h
  rcases l with _ | ⟨c, l⟩; · simp at h
  rcases l with _ | ⟨e, l⟩; · simp at h
  rcases l with _ | ⟨f, l⟩; · simp at h
  rcases l with _ | ⟨g, l⟩
  · rfl
  · simp at h

lemma list_eq_of_length_six {α : Type} (l : List α) (d : α)
    (h : l.length = 6) :
    l = [l.getD 0 d, l.getD 1 d, l.getD 2 d, l.getD 3 d, l.getD 4 d,
         l.getD 5 d] := by
  rcases l with _ | ⟨a, l⟩; · simp at h
  rcases l with _ | ⟨b, l⟩; · simp at h
  rcases l with _ | ⟨c, l⟩; · simp at h
  rcases l with _ | ⟨e, l⟩; · simp at h
  rcases l with _ | ⟨f, l⟩; · simp at h
  rcases l with _ | ⟨g, l⟩; · simp at h
  rcases l with _ | ⟨k, l⟩
  · rfl
  · simp at h

lemma upperChar_eq_of_digit (c : Char) (h : c.isDigit = true) :
    upperChar c = c := by
  simp only [Char.isDigit] at h
  simp only [Bool.and_eq_true, decide_eq_true_eq] at h
  unfold upperChar
  rw [if_neg]
  rintro ⟨h1, _⟩
  have h9 : c ≤ '9' := h.2
  exact absurd (le_trans h1 h9) (by decide)

lemma mapUpper_digits (ds : List Char)
    (hall : ∀ x ∈ ds, Char.isDigit x = true) : ds.map upperChar = ds := by
  induction ds with
  | nil => rfl
  | cons d rest ih =>
    simp only [List.map_cons]
    rw [upperChar_eq_of_digit d (hall d (List.mem_cons_self d rest)),
      ih (fun x hx => hall x (List.mem_cons_of_mem d hx))]

lemma upperL_of_canonRev (cs : List Char) (h : isCanonRev cs = true) :
    upperL cs = cs := by
  rcases cs with _ | ⟨c, ds⟩
  · rfl
  · unfold isCanonRev at h
    simp only [Bool.and_eq_true, decide_eq_true_eq, List.all_eq_true] at h
    obtain ⟨⟨hc, _⟩, hall⟩ := h
    subst hc
    unfold upperL
    simp only [List.map_cons]
    have hR : upperChar 'R' = 'R' := by decide
    rw [hR, mapUpper_digits ds hall]

lemma searchAlt_some (alts : List (List Char)) :
    ∀ (s a : List Char), searchAlt alts s = some a → a ∈ alts ∧ a <:+: s := by
  intro s
  induction s with
  | nil =>
    intro a h
    unfold searchAlt at h
    refine ⟨ List.mem_of_find?_eq_some h, ?_⟩
    have hp := List.find?_some h
    simp only [decide_eq_true_eq] at hp
    exact hp.isInfix
  | cons c rest ih =>
    intro a h
    unfold searchAlt at h
    rcases hf : List.find? (fun x => decide (x <+: (c :: rest))) alts with _ | b
    · rw [hf] at h
      obtain ⟨hmem, hinf⟩ := ih a h
      exact ⟨hmem, List.infix_cons hinf⟩
    · rw [hf] at h
      cases h
      refine ⟨ List.mem_of_find?_eq_some hf, ?_⟩
      have hp := List.find?_some hf
      simp only [decide_eq_true_eq] at hp
      exact hp.isInfix

lemma searchAlt_eq_none (alts : List (List Char)) :
    ∀ (s : List Char), (∀ a ∈ alts, ¬ a <:+: s) → searchAlt alts s = none := by
  intro s
  induction s with
  | nil =>
    intro h
    unfold searchAlt
    rcases hf : List.find? (fun x => decide (x <+: ([] : List Char))) alts
      with _ | b
    · rfl
    · have hp := List.find?_some hf
      simp only [decide_eq_true_eq] at hp
      exact absurd hp.isInfix (h b (List.mem_of_find?_eq_some hf))
  | cons c rest ih =>
    intro h
    unfold searchAlt
    rcases hf : List.find? (fun x => decide (x <+: (c :: rest))) alts with _ | b
    · exact ih (fun a ha hinf => h a ha (List.infix_cons hinf))
    · have hp := List.find?_some hf
      simp only [decide_eq_true_eq] at hp
      exact absurd hp.isInfix (h b (List.mem_of_find?_eq_some hf))

lemma searchAlt_isSome (alts : List (List Char)) :
    ∀ (s : List Char), (∃ a ∈ alts, a <:+: s) →
      (searchAlt alts s).isSome = true := by
  intro s
  induction s with
  | nil =>
    rintro ⟨a, ha, hinf⟩
    unfold searchAlt
    rw [ List.find?_isSome]
    refine ⟨a, ha, ?_⟩
    simp only [decide_eq_true_eq]
    have : a = [] := List.eq_nil_of_infix_nil hinf
    simp [this]
  | cons c rest ih =>
    rintro ⟨a, ha, hinf⟩
    unfold searchAlt
    rcases hf : List.find? (fun x => decide (x <+: (c :: rest))) alts with _ | b
    · rw [ List.infix_cons_iff] at hinf
      rcases hinf with hpre | hinf
      · have := List.find?_eq_none.mp hf a ha
        simp only [decide_eq_true_eq] at this
        exact absurd hpre this
      · exact ih ⟨a, ha, hinf⟩
    · rfl

lemma findDupGo_eq_false (names : List String) :
    ∀ (uniq : List String) (dup : Bool),
      (findDupGo uniq dup names = false ↔
        dup = false ∧ names.Nodup ∧ ∀ x ∈ names, x ∉ uniq) := by
  induction names with
  | nil =>
    intro uniq dup
    simp [findDupGo]
  | cons n rest ih =>
    intro uniq dup
    unfold findDupGo
    by_cases hn : n ∈ uniq
    · rw [if_pos hn, ih]
      constructor
      · rintro ⟨h, _⟩
        exact absurd h (by simp)
      · rintro ⟨_, _, hall⟩
        exact absurd hn (hall n (List.mem_cons_self n rest))
    · rw [if_neg hn, ih]
      constructor
      · rintro ⟨hd, hnd, hall⟩
        have hnr : n ∉ rest := by
          intro hmem
          exact (hall n hmem) (by simp)
        refine ⟨hd, List.nodup_cons.mpr ⟨hnr, hnd⟩, ?_⟩
        intro x hx
        rcases List.mem_cons.mp hx with rfl | hx2
        · exact hn
        · intro hxu
          exact (hall x hx2) (by simp [hxu])
      · rintro ⟨hd, hnd, hall⟩
        rw [ List.nodup_cons] at hnd
        refine ⟨hd, hnd.2, ?_⟩
        intro x hx hxu
        rw [ List.mem_append] at hxu
        rcases hxu with hxu | hxn
        · exact (hall x (List.mem_cons_of_mem n hx)) hxu
        · have hxeq : x = n := by simpa using hxn
          subst hxeq
          exact hnd.1 hx

/-- Zeta-expanded form of `decode` (its local `fields` binding inlined). -/
lemma decode_eq (filename : List Char) :
    decode filename =
      if 4 ≤ (splitU (normSep filename)).length ∧
          (splitU (normSep filename)).length < 7 then
        some ⟨(splitU (normSep filename)).getD 0 [],
              (splitU (normSep filename)).getD 1 [],
              (splitU (normSep filename)).getD 2 [],
              (splitU (normSep filename)).getD 3 [],
              if (splitU (normSep filename)).length < 5 then ['1']
              else (splitU (normSep filename)).getD 4 [],
              if (splitU (normSep filename)).length < 6 then ['R', '0']
              else upperL ((splitU (normSep filename)).getD 5 [])⟩
      else none := rfl

lemma parseNames_length (rows : List Row) :
    ∀ (ns : List String), parseNames rows = some ns →
      ns.length = rows.length := by
  induction rows with
  | nil =>
    intro ns h
    simp only [parseNames] at h
    cases h
    rfl
  | cons r rest ih =>
    intro ns h
    unfold parseNames at h
    rcases h1 : stripRev r.name with _ | n
    · rw [h1] at h
      cases h
    · rw [h1] at h
      rcases h2 : parseNames rest with _ | ms
      · rw [h2] at h
        cases h
      · rw [h2] at h
        cases h
        simp [ih ms h2]

/-! ### Claim theorems -/

/-- C1.  The Revision Resolver is claimed to keep, in every base-name
group, exactly the record of maximum revision regardless of input
order.  Evaluating `removeOldRevisions` at a single group whose
revisions appear in discovery order 1, 0, 2 (all canonical names
distinct, so the claim's no-duplicate hypothesis holds) shows the
output keeps the stale revision 1 alongside revision 2: when the
running maximum grows, the code deletes `sortedIndx[i-1]` — the
*positionally* previous record, which at that point is the already
deleted revision-0 record, not the revision-1 holder. -/
theorem revisionResolver_keeps_stale_revision_on_unsorted_input :
    (c1Input.map Record.name).Nodup ∧
    mkRec "Zhang_Wen_UTK_Wang_1_R1" "Zhang_Wen_UTK_Wang_1" 1
      ∈ removeOldRevisions c1Input ∧
    mkRec "Zhang_Wen_UTK_Wang_1_R2" "Zhang_Wen_UTK_Wang_1" 2
      ∈ removeOldRevisions c1Input ∧
    (removeOldRevisions c1Input).length = 2 := by decide

/-- C2 counterexample.  The claim says a non-numeric index or a
malformed revision token makes `decode` fail with `MalformedName`;
on `"A_B_C_D_xyz_rev7"` (six fields, index `"xyz"` not numeric,
revision `"rev7"` not `R<digits>`) `decode` succeeds, returning the
index verbatim and the revision merely upper-cased. -/
theorem decode_accepts_nonnumeric_index_and_malformed_revision :
    decode ( "A_B_C_D_xyz_rev7".data )
      = some ⟨ "A".data, "B".data, "C".data, "D".data,
               "xyz".data, "REV7".data ⟩ := by decide

/-- C2 amended.  `decode` validates only the field count: every
filename splitting into 5 or 6 fields is accepted, whatever the
content of the index and revision fields — the index is passed through
verbatim and the revision is the default `R0` (5 fields) or the raw
sixth field upper-cased (6 fields), with no digit check. -/
theorem decode_checks_only_field_count (cs : List Char)
    (h5 : 5 ≤ (splitU (normSep cs)).length)
    (h6 : (splitU (normSep cs)).length ≤ 6) :
    ∃ d : Decoded, decode cs = some d ∧
      d.indx = (splitU (normSep cs)).getD 4 [] ∧
      ((splitU (normSep cs)).length = 5 → d.revs = ['R', '0']) ∧
      ((splitU (normSep cs)).length = 6 →
        d.revs = upperL ((splitU (normSep cs)).getD 5 [])) := by
  have hif : 4 ≤ (splitU (normSep cs)).length ∧
      (splitU (normSep cs)).length < 7 := ⟨by omega, by omega⟩
  rw [decode_eq, if_pos hif]
  refine ⟨_, rfl, ?_, ?_, ?_⟩
  · show (if (splitU (normSep cs)).length < 5 then ['1']
        else (splitU (normSep cs)).getD 4 []) = _
    rw [if_neg (by omega)]
  · intro heq
    show (if (splitU (normSep cs)).length < 6 then ['R', '0']
        else upperL ((splitU (normSep cs)).getD 5 [])) = _
    rw [if_pos (by omega)]
  · intro heq
    show (if (splitU (normSep cs)).length < 6 then ['R', '0']
        else upperL ((splitU (normSep cs)).getD 5 [])) = _
    rw [if_neg (by omega)]

/-- C2 witness: a concrete 5-field name with non-numeric index. -/
theorem decode_checks_only_field_count_witness :
    5 ≤ (splitU (normSep ( "A_B_C_D_xyz".data ))).length ∧
    (splitU (normSep ( "A_B_C_D_xyz".data ))).length ≤ 6 ∧
    ∃ d : Decoded, decode ( "A_B_C_D_xyz".data ) = some d ∧
      d.indx = (splitU (normSep ( "A_B_C_D_xyz".data ))).getD 4 [] ∧
      ((splitU (normSep ( "A_B_C_D_xyz".data ))).length = 5 →
        d.revs = ['R', '0']) ∧
      ((splitU (normSep ( "A_B_C_D_xyz".data ))).length = 6 →
        d.revs = upperL ((splitU (normSep ( "A_B_C_D_xyz".data ))).getD 5 [])) :=
  ⟨by decide, by decide,
    decode_checks_only_field_count ( "A_B_C_D_xyz".data ) (by decide) (by decide)⟩

/-- C3 counterexample.  The claim says Decode-then-Encode reproduces
every well-formed 4/5/6-field name after separator normalization; on
the well-formed 4-field name `"A_B_C_D"` the round trip instead
appends the default index and revision, yielding `"A_B_C_D_1_R0"`,
which differs from the normalized original. -/
theorem roundTrip_appends_defaults_on_four_fields :
    roundTrip ( "A_B_C_D".data ) = some ( "A_B_C_D_1_R0".data ) ∧
    normSep ( "A_B_C_D".data ) = "A_B_C_D".data ∧
    ( "A_B_C_D_1_R0".data ) ≠ ( "A_B_C_D".data ) := by decide

/-- C3 amended.  The round trip reproduces the separator-normalized
original exactly for names normalizing to 6 fields whose revision
token is already canonical (`R` followed by digits, upper-case); for
4- and 5-field names Encode appends the defaults (`_1_R0`
resp. `_R0`) to the normalized original instead of reproducing it. -/
theorem roundTrip_of_canonical_fields (cs : List Char) :
    ((splitU (normSep cs)).length = 6 →
      isCanonRev ((splitU (normSep cs)).getD 5 []) = true →
      roundTrip cs = some (normSep cs))
    ∧ ((splitU (normSep cs)).length = 4 →
      roundTrip cs = some (normSep cs ++ "_1_R0".data))
    ∧ ((splitU (normSep cs)).length = 5 →
      roundTrip cs = some (normSep cs ++ "_R0".data)) := by
  refine ⟨?_, ?_, ?_⟩
  · intro h6 hrev
    unfold roundTrip
    rw [decode_eq, if_pos (by omega : 4 ≤ (splitU (normSep cs)).length ∧
      (splitU (normSep cs)).length < 7)]
    rw [if_neg (by omega : ¬ (splitU (normSep cs)).length < 5),
      if_neg (by omega : ¬ (splitU (normSep cs)).length < 6)]
    rw [Option.map_some']
    congr 1
    show joinU [_, _, _, _, _, upperL ((splitU (normSep cs)).getD 5 [])] = _
    rw [upperL_of_canonRev _ hrev]
    rw [← list_eq_of_length_six (splitU (normSep cs)) [] h6]
    exact joinU_splitU (normSep cs)
  · intro h4
    unfold roundTrip
    rw [decode_eq, if_pos (by omega : 4 ≤ (splitU (normSep cs)).length ∧
      (splitU (normSep cs)).length < 7)]
    rw [if_pos (by omega : (splitU (normSep cs)).length < 5),
      if_pos (by omega : (splitU (normSep cs)).length < 6)]
    rw [Option.map_some']
    congr 1
    show joinU [(splitU (normSep cs)).getD 0 [], (splitU (normSep cs)).getD 1 [],
      (splitU (normSep cs)).getD 2 [], (splitU (normSep cs)).getD 3 [],
      ['1'], ['R', '0']] = _
    have hjoin : ∀ a b c d : List Char,
        joinU [a, b, c, d, ['1'], ['R', '0']]
          = joinU [a, b, c, d] ++ ['_', '1', '_', 'R', '0'] := by
      intro a b c d
      simp [joinU]
    rw [hjoin, ← list_eq_of_length_four (splitU (normSep cs)) [] h4,
      joinU_splitU (normSep cs)]
  · intro h5
    unfold roundTrip
    rw [decode_eq, if_pos (by omega : 4 ≤ (splitU (normSep cs)).length ∧
      (splitU (normSep cs)).length < 7)]
    rw [if_neg (by omega : ¬ (splitU (normSep cs)).length < 5),
      if_pos (by omega : (splitU (normSep cs)).length < 6)]
    rw [Option.map_some']
    congr 1
    show joinU [(splitU (normSep cs)).getD 0 [], (splitU (normSep cs)).getD 1 [],
      (splitU (normSep cs)).getD 2 [], (splitU (normSep cs)).getD 3 [],
      (splitU (normSep cs)).getD 4 [], ['R', '0']] = _
    have hjoin : ∀ a b c d e : List Char,
        joinU [a, b, c, d, e, ['R', '0']]
          = joinU [a, b, c, d, e] ++ ['_', 'R', '0'] := by
      intro a b c d e
      simp [joinU]
    rw [hjoin, ← list_eq_of_length_five (splitU (normSep cs)) [] h5,
      joinU_splitU (normSep cs)]

/-- C3 witness: the canonical 6-field example name round-trips. -/
theorem roundTrip_of_canonical_fields_witness :
    (splitU (normSep ( "Zhang_Wen_UTK_Wang_1_R0".data ))).length = 6 ∧
    isCanonRev ((splitU (normSep ( "Zhang_Wen_UTK_Wang_1_R0".data ))).getD 5 [])
      = true ∧
    roundTrip ( "Zhang_Wen_UTK_Wang_1_R0".data )
      = some (normSep ( "Zhang_Wen_UTK_Wang_1_R0".data )) :=
  ⟨by decide, by decide,
    (roundTrip_of_canonical_fields ( "Zhang_Wen_UTK_Wang_1_R0".data )).1
      (by decide) (by decide)⟩

/-- C4 counterexample.  The claim says a `.pdf` whose directory path
has neither `"Poster"` nor `"Paper"` and whose directory holds no
`.doc`- or `.ppt`-named sibling fails with `AmbiguousKind`; the code
instead classifies such a file as a poster (the sibling check only
looks for `.doc`, and its absence means poster, never an error). -/
theorem pdf_without_signals_classified_poster :
    subIn "Poster" "Generated/Hardware Testbed" = false ∧
    subIn "Paper" "Generated/Hardware Testbed" = false ∧
    (∀ f ∈ [ "a.pdf" ], subIn ".doc" (pyLower f) = false ∧
      subIn ".ppt" (pyLower f) = false) ∧
    classifyKind "Generated/Hardware Testbed" ".pdf" [ "a.pdf" ]
      = Except.ok Kind.poster := by decide

/-- C4 amended.  For a `.pdf` with no `"Poster"`/`"Paper"` path signal
and no sibling whose lower-cased name contains `".doc"` (and none
containing `".ppt"`), classification does not fail: it assigns
`Poster`. -/
theorem pdf_no_signal_no_doc_sibling_is_poster (path : String)
    (siblings : List String)
    (hpo : subIn "Poster" path = false) (hpa : subIn "Paper" path = false)
    (hdoc : ∀ f ∈ siblings, subIn ".doc" (pyLower f) = false)
    (_hppt : ∀ f ∈ siblings, subIn ".ppt" (pyLower f) = false) :
    classifyKind path ".pdf" siblings = Except.ok Kind.poster := by
  have hdocx : ∀ f ∈ siblings, subIn ".docx" (pyLower f) = false := by
    intro f hf
    cases hx : subIn ".docx" (pyLower f) with
    | false => rfl
    | true =>
      exfalso
      have h4 : (".docx".data : List Char) <:+: (pyLower f).data := by
        simpa [subIn] using hx
      have h3 : (".doc".data : List Char) <:+: (pyLower f).data :=
        List.IsInfix.trans (by decide) h4
      have h5 : subIn ".doc" (pyLower f) = true := by
        simpa [subIn] using h3
      rw [hdoc f hf] at h5
      cases h5
  have hany : (siblings.any
      (fun f => subIn ".doc" (pyLower f) || subIn ".docx" (pyLower f)))
      = false := by
    rw [ List.any_eq_false]
    intro f hf
    simp [hdoc f hf, hdocx f hf]
  have hext : pyLower ".pdf" = ".pdf" := by decide
  unfold classifyKind
  simp [hpo, hpa, hany, hext]

/-- C4 witness: a concrete signal-free `.pdf` classified as poster. -/
theorem pdf_no_signal_no_doc_sibling_is_poster_witness :
    subIn "Poster" "Submissions/HVDC and FACTS" = false ∧
    subIn "Paper" "Submissions/HVDC and FACTS" = false ∧
    classifyKind "Submissions/HVDC and FACTS" ".pdf" [ "x.pdf", "notes.txt" ]
      = Except.ok Kind.poster :=
  ⟨by decide, by decide,
    pdf_no_signal_no_doc_sibling_is_poster "Submissions/HVDC and FACTS"
      [ "x.pdf", "notes.txt" ] (by decide) (by decide) (by decide) (by decide)⟩

/-- Zeta-expanded form of `categorize` (its local binding inlined). -/
lemma categorize_eq (p : String) :
    categorize p =
      match searchPats areaPats p.data with
      | some a => some ((searchAlt categoryAlts p.data).map String.mk,
                        String.mk a)
      | none => none := rfl

/-- C5 counterexample.  The claim says the category search is
case-insensitive; a path containing the token `"Core"` only in lower
case (`"core"`) yields `category = none` even though the record is
otherwise valid (the area resolves). -/
theorem categorize_lowercase_token_gives_null :
    ( "core".data <:+: ( "core/Hardware Testbed/x" : String).data ) ∧
    categorize "core/Hardware Testbed/x"
      = some (none, "Hardware Testbed") := by decide

/-- C5 amended.  Provided the area resolves, `categorize` never fails:
its category component is the leftmost case-*sensitive* occurrence of
one of the literal tokens `Core`, `Non-core`, `Associated` in the
path, and is `none` when no token occurs case-sensitively — in
particular a poster path with a resolvable area and no category token
produces a valid result with a null category. -/
theorem categorize_category_case_sensitive (p : String)
    (harea : (searchPats areaPats p.data).isSome = true) :
    ((∃ t ∈ categoryAlts, t <:+: p.data) →
      ∃ a r, categorize p = some (some a, r) ∧ a.data ∈ categoryAlts ∧
        a.data <:+: p.data)
    ∧ ((∀ t ∈ categoryAlts, ¬ t <:+: p.data) →
      ∃ r, categorize p = some (none, r)) := by
  obtain ⟨ar, har⟩ := Option.isSome_iff_exists.mp harea
  constructor
  · intro hex
    have hs := searchAlt_isSome categoryAlts p.data hex
    obtain ⟨a, ha⟩ := Option.isSome_iff_exists.mp hs
    obtain ⟨hmem, hinf⟩ := searchAlt_some categoryAlts p.data a ha
    refine ⟨String.mk a, String.mk ar, ?_, hmem, hinf⟩
    rw [categorize_eq, har, ha]
    rfl
  · intro hall
    have hnone := searchAlt_eq_none categoryAlts p.data hall
    refine ⟨String.mk ar, ?_⟩
    rw [categorize_eq, har, hnone]
    rfl

/-- C5 witness: a poster path carrying the exact token `Core`. -/
theorem categorize_category_case_sensitive_witness :
    (searchPats areaPats ( "Posters/Core/Hardware Testbed" : String).data).isSome
      = true ∧
    ∃ a r, categorize "Posters/Core/Hardware Testbed" = some (some a, r) ∧
      a.data ∈ categoryAlts ∧
      a.data <:+: ( "Posters/Core/Hardware Testbed" : String).data :=
  ⟨by decide,
    (categorize_category_case_sensitive "Posters/Core/Hardware Testbed"
        (by decide)).1 ⟨ "Core".data, by decide, by decide⟩⟩

/-- C6.  `findDuplicate` raises `DuplicateSubmission` exactly when two
records of its input share the same canonical encoded name
(identity+index+revision, the `"Name"` field); with pairwise distinct
names it never raises. -/
theorem findDuplicate_iff_name_collision (l : List Record) :
    findDuplicate l = true ↔ ¬ (l.map Record.name).Nodup := by
  unfold findDuplicate
  constructor
  · intro h hnodup
    have hfalse := (findDupGo_eq_false (l.map Record.name) [] false).mpr
      ⟨rfl, hnodup, by simp⟩
    rw [h] at hfalse
    cases hfalse
  · intro h
    cases hb : findDupGo [] false (l.map (fun f => f.name)) with
    | true => rfl
    | false =>
      exact absurd ((findDupGo_eq_false (l.map Record.name) [] false).mp
        hb).2.1 h

/-- C7.  A candidate manifest row whose base identity (file name with
the `_R<digits>` suffix stripped) occurs in the reference with a
different `Last Modified` value is reported as content-modified and
appears neither among the new nor among the deleted submissions. -/
theorem diff_modified_mtime_in_content_modified
    (a b : List Row) (namesA namesB : List String) (i : Nat) (n : String)
    (ra : Row)
    (hA : parseNames a = some namesA)
    (hB : parseNames b = some namesB)
    (hi : i < b.length)
    (hn : namesB.getD i "" = n)
    (hmem : n ∈ namesA)
    (hra : lookupRef namesA a n = some ra)
    (hmt : ra.mtime ≠ (b.getD i default).mtime) :
    ∃ rep : DiffReport, diff a b = some rep ∧
      n ∈ rep.contentModifies ∧ n ∉ rep.newSubs ∧ n ∉ rep.delSubs := by
  have hlenB : namesB.length = b.length := parseNames_length b namesB hB
  refine ⟨⟨((namesB.zip b).filter (fun p => p.1 ∉ namesA)).map (fun p => p.1),
      (namesB.zip b).filterMap (fun p =>
        match lookupRef namesA a p.1 with
        | some r2 => if r2.mtime ≠ p.2.mtime then some p.1 else none
        | none => none),
      (namesB.zip b).filterMap (fun p =>
        match lookupRef namesA a p.1 with
        | some r2 =>
          if r2.category ≠ p.2.category || r2.area ≠ p.2.area then some p.1
          else none
        | none => none),
      namesA.filter (fun m => m ∉ namesB)⟩, ?_, ?_, ?_, ?_⟩
  · unfold diff
    rw [hA, hB]
  · show n ∈ (namesB.zip b).filterMap _
    rw [ List.mem_filterMap]
    have hiB : i < namesB.length := by omega
    have hzlen : i < (namesB.zip b).length := by
      simp only [List.length_zip]
      omega
    refine ⟨(n, b.getD i default), ?_, ?_⟩
    · have hpair : (namesB.zip b)[i] = (namesB[i], b[i]) := List.getElem_zip
      have h1 : namesB[i] = n := by
        rw [← hn, List.getD_eq_getElem namesB "" hiB]
      have h2 : b.getD i default = b[i] := List.getD_eq_getElem b default hi
      have hEq : (n, b.getD i default) = (namesB.zip b)[i] := by
        rw [hpair, h1, h2]
      rw [hEq]
      exact List.getElem_mem hzlen
    · show (match lookupRef namesA a n with
        | some r2 => if r2.mtime ≠ (b.getD i default).mtime then some n
          else none
        | none => none) = some n
      rw [hra]
      exact if_pos hmt
  · intro hmem2
    rw [ List.mem_map] at hmem2
    obtain ⟨p, hp, hpn⟩ := hmem2
    rw [ List.mem_filter] at hp
    have h3 := hp.2
    rw [hpn] at h3
    simp only [decide_not, Bool.not_eq_true', decide_eq_false_iff_not] at h3
    exact h3 hmem
  · intro hmem2
    rw [ List.mem_filter] at hmem2
    have h2 : n ∉ namesB := by
      have h3 := hmem2.2
      simpa using h3
    have hiB : i < namesB.length := by omega
    have h4 : namesB.getD i "" ∈ namesB := by
      rw [ List.getD_eq_getElem namesB "" hiB]
      exact List.getElem_mem hiB
    rw [hn] at h4
    exact h2 h4

/-- C7 witness: the spec's §8 diff scenario — same base name
`Zhang_Wen_UTK_Wang_1`, revisions R0 vs R1, modification times 1000
vs 2000. -/
theorem diff_modified_mtime_in_content_modified_witness :
    parseNames [ ⟨ "Zhang_Wen_UTK_Wang_1_R0", "Core", "Hardware Testbed", 1000 ⟩ ]
      = some [ "Zhang_Wen_UTK_Wang_1" ] ∧
    ∃ rep : DiffReport,
      diff [ ⟨ "Zhang_Wen_UTK_Wang_1_R0", "Core", "Hardware Testbed", 1000 ⟩ ]
           [ ⟨ "Zhang_Wen_UTK_Wang_1_R1", "Core", "Hardware Testbed", 2000 ⟩ ]
        = some rep ∧
      "Zhang_Wen_UTK_Wang_1" ∈ rep.contentModifies ∧
      "Zhang_Wen_UTK_Wang_1" ∉ rep.newSubs ∧
      "Zhang_Wen_UTK_Wang_1" ∉ rep.delSubs :=
  ⟨by decide,
    diff_modified_mtime_in_content_modified
      [ ⟨ "Zhang_Wen_UTK_Wang_1_R0", "Core", "Hardware Testbed", 1000 ⟩ ]
      [ ⟨ "Zhang_Wen_UTK_Wang_1_R1", "Core", "Hardware Testbed", 2000 ⟩ ]
      [ "Zhang_Wen_UTK_Wang_1" ] [ "Zhang_Wen_UTK_Wang_1" ] 0
      "Zhang_Wen_UTK_Wang_1"
      ⟨ "Zhang_Wen_UTK_Wang_1_R0", "Core", "Hardware Testbed", 1000 ⟩
      (by decide) (by decide) (by decide) (by decide) (by decide) (by decide)
      (by decide)⟩

/-- C8 counterexample.  The manifest writer emits headers without the
`Last Modified`, `Title` and `Abstract` columns the claim (and spec
§6) asserts. -/
theorem csv_headers_differ_from_spec :
    (writeList2CSV [] []).1.headD "" = papersHeader ∧
    (writeList2CSV [] []).2.headD "" = postersHeader ∧
    papersHeader ≠ specPapersHeader ∧
    postersHeader ≠ specPostersHeader := by decide

/-- C8 amended.  The writer always emits, as the first line of each
file, the eight-column Papers header and the nine-column Posters
header (ending at `Revision`, without `Last Modified`/`Title`/
`Abstract`). -/
theorem csv_headers_always_emitted (papers posters : List Record) :
    (writeList2CSV papers posters).1.head? = some papersHeader ∧
    (writeList2CSV papers posters).2.head? = some postersHeader :=
  ⟨rfl, rfl⟩

/-- C9.  The Revision Resolver only selects: every record of its
output is one of the input records, unchanged in every field — the
output is a subset of the input. -/
theorem removeOldRevisions_subset (l : List Record) (r : Record)
    (h : r ∈ removeOldRevisions l) : r ∈ l := by
  unfold removeOldRevisions at h
  simp only [List.mem_map, List.mem_filter, List.mem_range] at h
  obtain ⟨i, ⟨hilt, _⟩, hr⟩ := h
  rw [ List.getD_eq_getElem l default hilt] at hr
  rw [← hr]
  exact List.getElem_mem hilt

/-- C9 witness: a surviving record of the C1 input is an input
record. -/
theorem removeOldRevisions_subset_witness :
    mkRec "Zhang_Wen_UTK_Wang_1_R2" "Zhang_Wen_UTK_Wang_1" 2 ∈ c1Input :=
  removeOldRevisions_subset c1Input
    (mkRec "Zhang_Wen_UTK_Wang_1_R2" "Zhang_Wen_UTK_Wang_1" 2) (by decide)

/-- C10.  A `.doc`/`.docx` in a `"Poster"` directory, or a
`.ppt`/`.pptx` in a `"Paper"` directory, always trips the
conflicting-signals check: classification fails with the `Confused`
error and never assigns a kind, so the path signal never silently
loses to the extension signal. -/
theorem conflicting_signals_always_fail (path ext : String)
    (siblings : List String) :
    (subIn "Poster" path = true →
      (pyLower ext = ".doc" ∨ pyLower ext = ".docx") →
      classifyKind path ext siblings = Except.error KindError.confused)
    ∧ (subIn "Paper" path = true →
      (pyLower ext = ".ppt" ∨ pyLower ext = ".pptx") →
      classifyKind path ext siblings = Except.error KindError.confused) := by
  constructor
  · intro hp hext
    unfold classifyKind
    rcases hext with h | h <;> simp [h, hp]
  · intro hp hext
    unfold classifyKind
    rcases hext with h | h <;> simp [h, hp]

/-- C10 witness: a `.docx` under a `Poster` directory fails. -/
theorem conflicting_signals_always_fail_witness :
    subIn "Poster" "X/Poster/Hardware Testbed" = true ∧
    pyLower ".DocX" = ".docx" ∧
    classifyKind "X/Poster/Hardware Testbed" ".DocX" []
      = Except.error KindError.confused :=
  ⟨by decide, by decide,
    (conflicting_signals_always_fail "X/Poster/Hardware Testbed" ".DocX" []).1
      (by decide) (Or.inr (by decide))⟩

end SiteVisit
